import Mathlib

/-!
Verification of the Monty Hall simulator (`src/main.rs`).

The embedding translates the Rust source into Lean:
* `Args` embeds the clap-derived `Args` struct (field `open` is renamed
  `openN` because `open` is a Lean keyword); `Args.openCount` embeds the
  method `Args::open`, i.e. `self.open.unwrap_or(self.doors - 2)`.
* `hostLoop` embeds the host-opening `while opened < to_open` loop of
  `play_single` (lines 45-55).  The Rust loop carries no fuel; its body either
  exits when the quota is met, writes `doors[current]` (which panics when
  `current` is out of bounds), or skips an index equal to `car`/`pick`.
  Because `current` increases by 1 each iteration and every index that is
  neither `car` nor `pick` is written (or panics when out of range), the loop
  performs at most `doors.length + 3` iterations before returning or
  panicking, so the structural fuel `doors.length + 4` used by `play_single`
  is never exhausted; `LoopResult.fuelOut` is an artifact of the embedding
  that `play_single` never produces.
* `findSwitch` embeds line 56, the scan
  `doors.iter().copied().enumerate().position(|(i, v)| !v && i != pick)`.
* `play_single` embeds lines 35-59 with the two random draws (`car`, `pick`)
  made explicit parameters; the `Option` result is `none` exactly on the
  panicking paths (out-of-bounds write, `.unwrap()` of `None`).
* `collectStep` / `collect` embed the aggregator loop of the collector
  thread (lines 111-127), folded over the finite sequence of received
  outcomes.
* `play` embeds the worker loop (lines 61-69), parametrised by the sequence
  of values observed when loading the cancellation flag and by the stream of
  trial outcomes the generator would produce.
* `workerConfig`, `configRejected`, `Summary`, `finalSummary` embed the
  orchestration facts of `main` needed by the claims: the parsed `Args`
  reach every worker unchanged with no validation, and the final report
  always performs the `wins / total` division.

The `spec*` definitions formalise the natural-language specification of the
trial generator (spec section 4.1) and are compared with the code-side
definitions in the refinement theorems.
-/

/-- Embeds the clap `Args` struct (src lines 10-28).  The derived parser
constrains each field only to its integer type: any `usize` values parse. -/
structure Args where
  doors : Nat
  openN : Option Nat
  change : Bool
  run_for_seconds : Option Nat
deriving DecidableEq

/-- Embeds `Args::open` (src line 31): `self.open.unwrap_or(self.doors - 2)`. -/
def Args.openCount (a : Args) : Nat := a.openN.getD (a.doors - 2)

/-- The host's eligibility test of src line 48: a door index that is neither
the car's position nor the player's pick. -/
def elig (car pick i : Nat) : Bool := (i != car) && (i != pick)

/-- Result of the host-opening loop: normal termination with the updated
buffer, an out-of-bounds write (a Rust panic), or exhausted embedding fuel
(unreachable for the fuel `play_single` supplies). -/
inductive LoopResult where
  | ok (doors : List Bool) : LoopResult
  | oob : LoopResult
  | fuelOut : LoopResult
deriving DecidableEq

/-- Embeds the `while opened < to_open` loop of `play_single`
(src lines 45-55).  `doors[current] = true` is modelled by `List.set` guarded
by the bounds check that Rust performs implicitly, panicking (`.oob`) when
`current ≥ doors.length`. -/
def hostLoop (car pick toOpen : Nat) : Nat → List Bool → Nat → Nat → LoopResult
  | 0, _, _, _ => .fuelOut
  | fuel + 1, doors, opened, current =>
    if opened < toOpen then
      if elig car pick current then
        if current < doors.length then
          hostLoop car pick toOpen fuel (doors.set current true) (opened + 1) (current + 1)
        else .oob
      else hostLoop car pick toOpen fuel doors opened (current + 1)
    else .ok doors

/-- Embeds src line 56: the first index `i` with `!doors[i] && i != pick`. -/
def findSwitch (doors : List Bool) (pick : Nat) : Option Nat :=
  (List.range doors.length).find? (fun i => !(doors.getD i false) && (i != pick))

/-- Embeds `play_single` (src lines 35-59) with the two uniform draws
`car` (`car_pos`) and `pick` passed explicitly.  `doors.fill(false)` makes the
buffer `List.replicate doors.length false`; the result is `none` exactly when
the Rust code would panic (host loop out-of-bounds write, or `.unwrap()` on
`position` finding nothing). -/
def play_single (args : Args) (doors : List Bool) (car pick : Nat) : Option Bool :=
  let cleared := List.replicate doors.length false
  if args.change then
    match hostLoop car pick args.openCount (doors.length + 4) cleared 0 0 with
    | .ok d =>
      match findSwitch d pick with
      | some t => some (car == t)
      | none => none
    | _ => none
  else some (car == pick)

/-- Modelled from the spec (section 4.1): the host opens the
`doorsOpenedByHost` lowest-indexed doors that are neither the car door nor
the initial pick, scanning in increasing index order until the quota is
met. -/
def specOpened (n k car pick : Nat) : List Nat :=
  ((List.range n).filter (elig car pick)).take k

/-- Modelled from the spec (section 4.1): the player's final pick is the
lowest-indexed door that is neither host-opened nor the initial pick. -/
def specFinalPick (n k car pick : Nat) : Option Nat :=
  (List.range n).find? (fun i => !((specOpened n k car pick).contains i) && (i != pick))

/-- Modelled from the spec (section 4.1): the reference outcome of one trial.
If not switching the outcome is `carDoor == initialPick`; if switching it is
`finalPick == carDoor`. -/
def specOutcome (args : Args) (car pick : Nat) : Option Bool :=
  if args.change then
    (specFinalPick args.doors args.openCount car pick).map (fun f => f == car)
  else some (car == pick)

/-- Marks the listed indices of the buffer as opened; the closed form of what
the host loop does to the scratch buffer. -/
def markOpen (doors : List Bool) (s : List Nat) : List Bool :=
  s.foldl (fun d i => d.set i true) doors

/-- Number of winning draw pairs: counts `(car, pick) ∈ [0,n) × [0,n)` for
which `play_single` returns a win, `n = args.doors`. -/
def winCount (args : Args) : Nat :=
  ((List.range args.doors).map (fun car =>
    (List.range args.doors).countP (fun pick =>
      play_single args (List.replicate args.doors false) car pick == some true))).sum

/-- Embeds one step of the collector thread's loop (src lines 115-117):
`wins += won as usize; total += 1`. -/
def collectStep (acc : Nat × Nat) (won : Bool) : Nat × Nat :=
  (acc.1 + (if won then 1 else 0), acc.2 + 1)

/-- Embeds the collector thread (src lines 108-128): starting from
`(wins, total) = (0, 0)` it processes every received outcome in order and
returns the final pair `(wins, total)`. -/
def collect (outcomes : List Bool) : Nat × Nat :=
  outcomes.foldl collectStep (0, 0)

/-- Embeds the worker loop `play` (src lines 61-69):
`while !cancel.load(..) { chan.send(play_single(..)) }`.  `cancelReads` is the
finite sequence of values observed by the successive loads of the
cancellation flag; `trials` is the stream of outcomes the generator produces.
The returned list is the sequence of outcomes sent on the channel. -/
def play (cancelReads : List Bool) (trials : Nat → Bool) : List Bool :=
  match cancelReads with
  | [] => []
  | c :: cs => if c then [] else trials 0 :: play cs (fun n => trials (n + 1))

/-- Embeds src lines 73-104: `main` shares the parsed `Args` unchanged
(via `Arc::clone`) with every worker thread; no field is altered or clamped
between parsing and spawning. -/
def workerConfig (a : Args) : Args := a

/-- Embeds src lines 71-104: between `Args::parse()` and the thread spawns,
`main` performs no validation of the parsed configuration whatsoever — there
is no code path that rejects an `Args` value. -/
def configRejected (_ : Args) : Bool := false

/-- Shape of the final summary report of `main`. -/
inductive Summary where
  | percentReport (wins total : Nat) : Summary
  | noData : Summary
deriving DecidableEq

/-- Embeds src line 142: the final log line always formats
`(wins as f64 / total as f64) * 100.0`; there is no branch on `total == 0`. -/
def finalSummary (wins total : Nat) : Summary := .percentReport wins total

/-! ## Helper lemmas -/

lemma collect_foldl (l : List Bool) : ∀ w t : Nat,
    l.foldl collectStep (w, t) = (w + l.count true, t + l.length) := by
  induction l with
  | nil => intro w t; simp [List.count]
  | cons b l ih =>
    intro w t
    cases b <;> simp [collectStep, ih, List.count_cons] <;> omega

lemma count_true_add_count_false (l : List Bool) :
    l.count true + l.count false = l.length := by
  induction l with
  | nil => simp
  | cons b l ih => cases b <;> simp [List.count_cons] <;> omega

/-! ## Claim theorems (easy group) -/

/-- C2 counterexample: the claim that a configuration with `doorCount = 2`
(or `doorsOpenedByHost = doorCount - 1`) is rejected with a
`ConfigurationError` before any thread spawns is false: `main` has no
rejection path, so `configRejected` is `false` on those inputs and the
parsed configuration reaches the workers unchanged. -/
theorem c2_no_rejection_counterexample :
    configRejected ⟨2, none, false, none⟩ = false ∧
    configRejected ⟨3, some 2, true, none⟩ = false ∧
    workerConfig ⟨2, none, false, none⟩ = ⟨2, none, false, none⟩ := by
  decide

/-- C2 (amended): no configuration validation exists.  Configurations with
`doorCount = 2` or `doorsOpenedByHost = doorCount - 1` are never rejected and
reach the workers unchanged (never clamped); `doorCount = 2` trials then run
normally, while `doorsOpenedByHost = doorCount - 1` with switching makes the
trial generator panic (out-of-bounds write) inside a worker. -/
theorem c2_no_validation :
    configRejected ⟨2, none, false, none⟩ = false ∧
    workerConfig ⟨2, none, false, none⟩ = ⟨2, none, false, none⟩ ∧
    workerConfig ⟨3, some 2, true, none⟩ = ⟨3, some 2, true, none⟩ ∧
    play_single ⟨2, none, false, none⟩ (List.replicate 2 false) 0 1 = some false ∧
    play_single ⟨3, some 2, true, none⟩ (List.replicate 3 false) 0 1 = none := by
  decide

/-- C3: with `doorCount = 3`, `doorsOpenedByHost = 1`, switching wins for
exactly 6 of the 9 draw pairs and staying for exactly 3 of 9; with
`doorCount = 10`, `doorsOpenedByHost = 8`, switching wins for exactly 90 of
the 100 draw pairs and staying for exactly 10 of 100. -/
theorem c3_classical_counts :
    winCount ⟨3, some 1, true, none⟩ = 6 ∧
    winCount ⟨3, some 1, false, none⟩ = 3 ∧
    winCount ⟨10, some 8, true, none⟩ = 90 ∧
    winCount ⟨10, some 8, false, none⟩ = 10 := by
  decide

/-- C4 counterexample: the claim that a zero-trial run is reported as a
distinct "no data" outcome is false: the final summary of `main` is the
percent report even when `wins = total = 0`, never the `noData` outcome. -/
theorem c4_no_nodata_counterexample : finalSummary 0 0 ≠ Summary.noData := by
  decide

/-- C4 (amended): the shutdown summary always performs the `wins / total`
division, with no special case for `total = 0` — when zero trials were
observed the report is still the percent report (in Rust the `f64` division
`0.0 / 0.0` yields `NaN`, not a fault, so no distinct "no data" outcome
exists). -/
theorem c4_summary_always_divides (wins total : Nat) :
    finalSummary wins total = Summary.percentReport wins total := rfl

/-- C6: the collector satisfies `total = wins + losses` after processing any
finite sequence of outcomes: it returns exactly
`(number of true outcomes, number of outcomes received)`, wins plus the
number of false outcomes equals the total, and `wins ≤ total`. -/
theorem c6_collector_invariant (outcomes : List Bool) :
    collect outcomes = (outcomes.count true, outcomes.length) ∧
    (collect outcomes).1 + outcomes.count false = (collect outcomes).2 ∧
    (collect outcomes).1 ≤ (collect outcomes).2 := by
  have h : collect outcomes = (outcomes.count true, outcomes.length) := by
    simpa using collect_foldl outcomes 0 0
  refine ⟨h, ?_, ?_⟩ <;> rw [h]
  · exact count_true_add_count_false outcomes
  · exact Nat.le.intro (count_true_add_count_false outcomes)

/-- C7: `play_single` is deterministic in the configuration and the two
draws: the prior contents of the scratch buffer are irrelevant (the buffer is
cleared before use), so any two buffers of equal length give the identical
outcome. -/
theorem c7_deterministic (args : Args) (d1 d2 : List Bool) (car pick : Nat)
    (h : d1.length = d2.length) :
    play_single args d1 car pick = play_single args d2 car pick := by
  simp only [play_single, h]

/-- C7 witness: a dirty buffer and a cleared buffer of the same length give
the same outcome on a concrete trial. -/
theorem c7_deterministic_witness :
    [true, true, false].length = (List.replicate 3 false).length ∧
    play_single ⟨3, some 1, true, none⟩ [true, true, false] 0 2 =
      play_single ⟨3, some 1, true, none⟩ (List.replicate 3 false) 0 2 :=
  ⟨by decide, c7_deterministic ⟨3, some 1, true, none⟩ _ _ 0 2 (by decide)⟩

/-- C8: the worker loop checks the cancellation flag exactly once per
iteration: as long as each check observes `false` the loop sends exactly one
trial outcome per check, and as soon as a check observes `true` it sends
nothing more and terminates — with `k` false observations followed by a true
one, exactly the first `k` trial outcomes are sent. -/
theorem c8_worker_cancellation (k : Nat) (rest : List Bool) (trials : Nat → Bool) :
    play (List.replicate k false ++ true :: rest) trials = (List.range k).map trials := by
  induction k generalizing trials with
  | zero => simp [play]
  | succ k ih =>
    rw [List.replicate_succ, List.cons_append]
    simp only [play, if_neg (Bool.false_ne_true), ih]
    rw [List.range_succ_eq_map, List.map_cons, List.map_map]
    rfl

/-- C10: with `doorCount = 3`, `doorsOpenedByHost = 3` (a configuration that
argument parsing accepts) and switching, every draw with
`carDoor ≠ initialPick` drives the host-opening loop past the end of the
scratch buffer: the loop ends in an out-of-bounds write (a Rust panic) and
`play_single` fails instead of producing an outcome. -/
theorem c10_invalid_config_panics (car pick : Nat)
    (hc : car < 3) (hp : pick < 3) (hne : car ≠ pick) :
    hostLoop car pick 3 7 (List.replicate 3 false) 0 0 = .oob ∧
    play_single ⟨3, some 3, true, none⟩ (List.replicate 3 false) car pick = none := by
  have h : ∀ c, c < 3 → ∀ p, p < 3 → c ≠ p →
      hostLoop c p 3 7 (List.replicate 3 false) 0 0 = .oob ∧
      play_single ⟨3, some 3, true, none⟩ (List.replicate 3 false) c p = none := by
    decide
  exact h car hc pick hp hne

/-- C10 witness: the concrete draw `carDoor = 0`, `initialPick = 1`. -/
theorem c10_invalid_config_panics_witness :
    hostLoop 0 1 3 7 (List.replicate 3 false) 0 0 = .oob ∧
    play_single ⟨3, some 3, true, none⟩ (List.replicate 3 false) 0 1 = none :=
  c10_invalid_config_panics 0 1 (by decide) (by decide) (by decide)

/-! ## Helper lemmas for the trial generator -/

lemma elig_eq_true {car pick i : Nat} : elig car pick i = true ↔ i ≠ car ∧ i ≠ pick := by
  simp [elig]

lemma markOpen_nil (doors : List Bool) : markOpen doors [] = doors := rfl

lemma markOpen_cons (doors : List Bool) (a : Nat) (s : List Nat) :
    markOpen doors (a :: s) = markOpen (doors.set a true) s := rfl

lemma markOpen_length (s : List Nat) : ∀ doors : List Bool,
    (markOpen doors s).length = doors.length := by
  induction s with
  | nil => intro doors; rfl
  | cons a s ih => intro doors; rw [markOpen_cons, ih, List.length_set]

lemma getD_set_true (doors : List Bool) (a i : Nat) (ha : a < doors.length) :
    (doors.set a true).getD i false = (doors.getD i false || (a == i)) := by
  rw [List.getD_eq_getElem?_getD, List.getD_eq_getElem?_getD, List.getElem?_set]
  by_cases h : a = i
  · subst h; simp [ha]
  · simp [h]

lemma getD_set_true_ne (doors : List Bool) (a i : Nat) (h : a ≠ i) :
    (doors.set a true).getD i false = doors.getD i false := by
  rw [List.getD_eq_getElem?_getD, List.getD_eq_getElem?_getD, List.getElem?_set, if_neg h]

lemma markOpen_getD (s : List Nat) : ∀ (doors : List Bool) (i : Nat),
    (∀ j ∈ s, j < doors.length) →
    ((markOpen doors s).getD i false = true ↔ (doors.getD i false = true ∨ i ∈ s)) := by
  induction s with
  | nil => intro doors i _; simp [markOpen_nil]
  | cons a s ih =>
    intro doors i hb
    rw [markOpen_cons, ih (doors.set a true) i
      (fun j hj => (List.length_set doors a true) ▸ hb j (List.mem_cons_of_mem a hj))]
    rw [getD_set_true doors a i (hb a (List.mem_cons_self a s))]
    simp only [Bool.or_eq_true, beq_iff_eq, List.mem_cons]
    tauto

lemma getD_replicate_false (n i : Nat) :
    (List.replicate n false).getD i false = false := by
  rw [List.getD_eq_getElem?_getD, List.getElem?_replicate]
  by_cases h : i < n <;> simp [h]

lemma find?_congr {α : Type} (p q : α → Bool) : ∀ l : List α,
    (∀ a ∈ l, p a = q a) → l.find? p = l.find? q := by
  intro l
  induction l with
  | nil => intro _; rfl
  | cons a l ih =>
    intro h
    have ha := h a (List.mem_cons_self a l)
    rw [List.find?_cons, List.find?_cons, ← ha]
    cases hpa : p a
    · exact ih (fun x hx => h x (List.mem_cons_of_mem a hx))
    · rfl

lemma nat_beq_comm (a b : Nat) : (a == b) = (b == a) := by
  by_cases h : a = b
  · subst h; rfl
  · have h2 : ¬b = a := fun hh => h hh.symm
    simp [h, h2]

lemma hostLoop_eq_ok (car pick toOpen : Nat) : ∀ (fuel : Nat) (doors : List Bool) (opened current : Nat),
    car < doors.length → pick < doors.length → current ≤ doors.length →
    doors.length + 1 ≤ fuel + current →
    toOpen - opened ≤
      (((List.range' current (doors.length - current)).filter (elig car pick))).length →
    hostLoop car pick toOpen fuel doors opened current =
      .ok (markOpen doors
        (((List.range' current (doors.length - current)).filter (elig car pick)).take
          (toOpen - opened))) := by
  intro fuel
  induction fuel with
  | zero =>
    intro doors opened current _ _ hcur hfuel _
    omega
  | succ fuel ih =>
    intro doors opened current hcar hpick hcur hfuel hquota
    rw [hostLoop]
    by_cases hop : opened < toOpen
    · rw [if_pos hop]
      have hcl : current < doors.length := by
        rcases Nat.lt_or_ge current doors.length with h | h
        · exact h
        · exfalso
          have h0 : doors.length - current = 0 := by omega
          rw [h0] at hquota
          simp only [List.range'_zero, List.filter_nil, List.length_nil] at hquota
          omega
      have hsplit : doors.length - current = (doors.length - (current + 1)) + 1 := by omega
      rw [hsplit, List.range'_succ] at hquota ⊢
      by_cases hel : elig car pick current
      · rw [if_pos hel, if_pos hcl]
        rw [List.filter_cons, if_pos hel] at hquota ⊢
        have ihs := ih (doors.set current true) (opened + 1) (current + 1)
          (by rw [List.length_set]; exact hcar)
          (by rw [List.length_set]; exact hpick)
          (by rw [List.length_set]; omega)
          (by rw [List.length_set]; omega)
          (by rw [List.length_set]
              simp only [List.length_cons] at hquota
              omega)
        rw [List.length_set] at ihs
        rw [ihs]
        have htk : toOpen - opened = (toOpen - (opened + 1)) + 1 := by omega
        rw [htk, List.take_succ_cons, markOpen_cons]
      · rw [if_neg hel]
        rw [List.filter_cons, if_neg hel] at hquota ⊢
        have hcl2 : current + 1 ≤ doors.length := hcl
        exact ih doors opened (current + 1) hcar hpick hcl2 (by omega) hquota
    · rw [if_neg hop]
      have h0 : toOpen - opened = 0 := by omega
      rw [h0, List.take_zero, markOpen_nil]

lemma length_filter_elig (car pick : Nat) : ∀ n : Nat,
    ((List.range n).filter (elig car pick)).length
      + ((if car < n then 1 else 0) + (if pick < n ∧ pick ≠ car then 1 else 0)) = n := by
  intro n
  induction n with
  | zero => simp
  | succ n ih =>
    rw [List.range_succ, List.filter_append, List.length_append]
    have h1 : (List.filter (elig car pick) [n]).length =
        if n ≠ car ∧ n ≠ pick then 1 else 0 := by
      by_cases h : n ≠ car ∧ n ≠ pick
      · rw [if_pos h]
        have : elig car pick n = true := elig_eq_true.mpr h
        simp [List.filter, this]
      · rw [if_neg h]
        have : elig car pick n = false := by
          rcases Bool.eq_false_or_eq_true (elig car pick n) with ht | hf
          · exact absurd (elig_eq_true.mp ht) h
          · exact hf
        simp [List.filter, this]
    rw [h1]
    split_ifs at ih ⊢ <;> omega

lemma le_length_filter_elig (car pick n : Nat) :
    n - 2 ≤ ((List.range n).filter (elig car pick)).length := by
  have h := length_filter_elig car pick n
  split_ifs at h <;> omega

lemma mem_specOpened {n k car pick j : Nat} (hj : j ∈ specOpened n k car pick) :
    j < n ∧ j ≠ car ∧ j ≠ pick := by
  have hj2 : j ∈ (List.range n).filter (elig car pick) :=
    List.Sublist.mem hj (List.take_sublist k _)
  rw [List.mem_filter, List.mem_range] at hj2
  exact ⟨hj2.1, elig_eq_true.mp hj2.2⟩

lemma specOpened_length {n k car pick : Nat}
    (hk : k ≤ ((List.range n).filter (elig car pick)).length) :
    (specOpened n k car pick).length = k := by
  rw [specOpened, List.length_take]
  omega

lemma switch_target_exists (n k car pick : Nat) (h3 : 3 ≤ n) (hk : k ≤ n - 2)
    (hc : car < n) (hp : pick < n) :
    ∃ i, i < n ∧ i ∉ specOpened n k car pick ∧ i ≠ pick := by
  by_cases hlen : k < ((List.range n).filter (elig car pick)).length
  · refine ⟨((List.range n).filter (elig car pick))[k], ?_, ?_, ?_⟩
    · have hmem : ((List.range n).filter (elig car pick))[k] ∈
          (List.range n).filter (elig car pick) := List.getElem_mem hlen
      rw [List.mem_filter, List.mem_range] at hmem
      exact hmem.1
    · intro hmem
      obtain ⟨j, hj, hje⟩ := List.getElem_of_mem hmem
      have hjk : j < k := by
        have := hj
        rw [specOpened, List.length_take] at this
        omega
      have hjlt : j < (List.take k ((List.range n).filter (elig car pick))).length := by
        rw [specOpened] at hj; exact hj
      have hjE : j < ((List.range n).filter (elig car pick)).length := by
        rw [List.length_take] at hjlt
        omega
      have heq : ((List.range n).filter (elig car pick))[j] =
          ((List.range n).filter (elig car pick))[k] := by
        rw [← hje]
        exact (List.getElem_take _).symm
      have hnd : ((List.range n).filter (elig car pick)).Nodup :=
        (List.nodup_range n).filter _
      have := (hnd.getElem_inj_iff).mp heq
      omega
    · have hmem : ((List.range n).filter (elig car pick))[k] ∈
          (List.range n).filter (elig car pick) := List.getElem_mem hlen
      rw [List.mem_filter] at hmem
      exact (elig_eq_true.mp hmem.2).2
  · have hformula := length_filter_elig car pick n
    have hne : car ≠ pick := by
      intro h
      subst h
      split_ifs at hformula <;> omega
    refine ⟨car, hc, ?_, hne⟩
    intro hmem
    exact (mem_specOpened hmem).2.1 rfl

lemma hostLoop_top (car pick k n : Nat) (hc : car < n) (hp : pick < n) (hk : k ≤ n - 2) :
    hostLoop car pick k (n + 4) (List.replicate n false) 0 0 =
      .ok (markOpen (List.replicate n false) (specOpened n k car pick)) := by
  have hq : k - 0 ≤
      ((List.range' 0 ((List.replicate n false).length - 0)).filter (elig car pick)).length := by
    simp only [List.length_replicate, Nat.sub_zero, ← List.range_eq_range']
    have := le_length_filter_elig car pick n
    omega
  have h := hostLoop_eq_ok car pick k (n + 4) (List.replicate n false) 0 0
    (by simpa using hc) (by simpa using hp)
    (by simp) (by simp only [List.length_replicate]; omega) hq
  rw [h]
  simp only [List.length_replicate, Nat.sub_zero, ← List.range_eq_range', specOpened]

lemma specOpened_nodup (n k car pick : Nat) : (specOpened n k car pick).Nodup :=
  List.Nodup.sublist (List.take_sublist k _) ((List.nodup_range n).filter _)

lemma marked_getD {n k car pick : Nat} (i : Nat) :
    ((markOpen (List.replicate n false) (specOpened n k car pick)).getD i false = true ↔
      i ∈ specOpened n k car pick) := by
  rw [markOpen_getD _ _ _
    (fun j hj => by rw [List.length_replicate]; exact (mem_specOpened hj).1)]
  rw [getD_replicate_false]
  simp

lemma marked_getD_false {n k car pick : Nat} (i : Nat)
    (hnot : i ∉ specOpened n k car pick) :
    (markOpen (List.replicate n false) (specOpened n k car pick)).getD i false = false := by
  cases h : (markOpen (List.replicate n false) (specOpened n k car pick)).getD i false
  · rfl
  · exact absurd ((marked_getD i).mp h) hnot

lemma findSwitch_marked {n k car pick : Nat} :
    findSwitch (markOpen (List.replicate n false) (specOpened n k car pick)) pick =
      specFinalPick n k car pick := by
  rw [findSwitch, specFinalPick, markOpen_length, List.length_replicate]
  apply find?_congr
  intro i _
  have hco : (markOpen (List.replicate n false) (specOpened n k car pick)).getD i false =
      (specOpened n k car pick).contains i := by
    rw [Bool.eq_iff_iff, marked_getD i]
    exact List.elem_iff.symm
  rw [hco]

lemma play_single_eq_spec (args : Args) (doors : List Bool) (car pick : Nat)
    (hk : args.openCount ≤ args.doors - 2)
    (hc : car < args.doors) (hp : pick < args.doors) (hl : doors.length = args.doors) :
    play_single args doors car pick = specOutcome args car pick := by
  rw [play_single, specOutcome]
  by_cases hch : args.change = true
  · rw [if_pos hch, if_pos hch, hl,
      hostLoop_top car pick args.openCount args.doors hc hp hk]
    dsimp only
    rw [findSwitch_marked]
    cases hfp : specFinalPick args.doors args.openCount car pick with
    | none => rfl
    | some t =>
      simp only [Option.map_some']
      rw [nat_beq_comm]
  · rw [if_neg hch, if_neg hch]

lemma specFinalPick_isSome (n k car pick : Nat) (h3 : 3 ≤ n) (hk : k ≤ n - 2)
    (hc : car < n) (hp : pick < n) :
    ∃ t, specFinalPick n k car pick = some t := by
  obtain ⟨i, hin, hnot, hip⟩ := switch_target_exists n k car pick h3 hk hc hp
  rw [← Option.isSome_iff_exists, specFinalPick, List.find?_isSome]
  refine ⟨i, List.mem_range.mpr hin, ?_⟩
  simp only [Bool.and_eq_true, Bool.not_eq_true']
  constructor
  · cases hco : (specOpened n k car pick).contains i
    · rfl
    · exact absurd (List.elem_iff.mp hco) hnot
  · simpa using hip

lemma count_set_true : ∀ (l : List Bool) (a : Nat), a < l.length → l.getD a false = false →
    (l.set a true).count true = l.count true + 1 := by
  intro l
  induction l with
  | nil => intro a ha _; simp at ha
  | cons b l ih =>
    intro a ha hget
    cases a with
    | zero =>
      have hb : b = false := by simpa using hget
      subst hb
      simp [List.count_cons]
    | succ a =>
      have ha2 : a < l.length := by simpa using ha
      have hget2 : l.getD a false = false := by simpa using hget
      simp only [List.set_cons_succ, List.count_cons, ih a ha2 hget2]
      omega

lemma count_markOpen : ∀ (s : List Nat) (doors : List Bool), s.Nodup →
    (∀ j ∈ s, j < doors.length ∧ doors.getD j false = false) →
    (markOpen doors s).count true = doors.count true + s.length := by
  intro s
  induction s with
  | nil => intro doors _ _; simp [markOpen_nil]
  | cons a s ih =>
    intro doors hnd hb
    have hamem := hb a (List.mem_cons_self a s)
    rw [markOpen_cons, ih (doors.set a true) (List.Nodup.of_cons hnd) ?_]
    · rw [count_set_true doors a hamem.1 hamem.2]
      simp only [List.length_cons]
      omega
    · intro j hj
      have hja : a ≠ j := by
        intro h
        subst h
        exact (List.nodup_cons.mp hnd).1 hj
      refine ⟨?_, ?_⟩
      · rw [List.length_set]
        exact (hb j (List.mem_cons_of_mem a hj)).1
      · rw [getD_set_true_ne doors a j hja]
        exact (hb j (List.mem_cons_of_mem a hj)).2

/-! ## Claim theorems (trial generator) -/

/-- C1: for every valid configuration (`doorCount ≥ 3`,
`doorsOpenedByHost ≤ doorCount - 2`) and draws in range, `play_single`
returns exactly the specification's reference outcome: without switching the
outcome is `carDoor == initialPick`; with switching the host opens the
`doorsOpenedByHost` lowest-indexed doors that are neither `carDoor` nor
`initialPick` (in increasing index order until the quota is met), the final
pick is the lowest-indexed door that is neither host-opened nor the initial
pick, and the outcome is `finalPick == carDoor`. -/
theorem c1_matches_reference (args : Args) (doors : List Bool) (car pick : Nat)
    (h3 : 3 ≤ args.doors) (hk : args.openCount ≤ args.doors - 2)
    (hc : car < args.doors) (hp : pick < args.doors) (hl : doors.length = args.doors) :
    play_single args doors car pick = specOutcome args car pick ∧
    (specOutcome args car pick).isSome = true := by
  refine ⟨play_single_eq_spec args doors car pick hk hc hp hl, ?_⟩
  rw [specOutcome]
  by_cases hch : args.change = true
  · rw [if_pos hch]
    obtain ⟨t, ht⟩ := specFinalPick_isSome args.doors args.openCount car pick h3 hk hc hp
    rw [ht]
    rfl
  · rw [if_neg hch]
    rfl

/-- C1 witness: the classical configuration, car behind door 0, pick door 1. -/
theorem c1_matches_reference_witness :
    play_single ⟨3, some 1, true, none⟩ (List.replicate 3 false) 0 1 =
        specOutcome ⟨3, some 1, true, none⟩ 0 1 ∧
      (specOutcome ⟨3, some 1, true, none⟩ 0 1).isSome = true :=
  c1_matches_reference ⟨3, some 1, true, none⟩ (List.replicate 3 false) 0 1
    (by decide) (by decide) (by decide) (by decide) (by decide)

/-- C5: under a valid configuration and in-range draws, the host-opening
phase marks exactly `doorsOpenedByHost` doors of the scratch buffer (never
more), leaves both the car door and the initial pick unmarked, and the switch
target chosen afterwards is an unmarked door distinct from the initial
pick. -/
theorem c5_host_invariant (args : Args) (car pick : Nat)
    (h3 : 3 ≤ args.doors) (hk : args.openCount ≤ args.doors - 2)
    (hc : car < args.doors) (hp : pick < args.doors) :
    ∃ d, hostLoop car pick args.openCount (args.doors + 4)
          (List.replicate args.doors false) 0 0 = .ok d ∧
      d.count true = args.openCount ∧
      d.getD car false = false ∧
      d.getD pick false = false ∧
      ∃ t, findSwitch d pick = some t ∧ d.getD t false = false ∧ t ≠ pick := by
  refine ⟨markOpen (List.replicate args.doors false)
      (specOpened args.doors args.openCount car pick),
    hostLoop_top car pick args.openCount args.doors hc hp hk, ?_, ?_, ?_, ?_⟩
  · rw [count_markOpen _ _ (specOpened_nodup args.doors args.openCount car pick)
      (fun j hj => ⟨by rw [List.length_replicate]; exact (mem_specOpened hj).1,
        getD_replicate_false args.doors j⟩)]
    rw [List.count_replicate]
    rw [specOpened_length ?_]
    · simp
    · have := le_length_filter_elig car pick args.doors
      omega
  · exact marked_getD_false car (fun hmem => (mem_specOpened hmem).2.1 rfl)
  · exact marked_getD_false pick (fun hmem => (mem_specOpened hmem).2.2 rfl)
  · obtain ⟨t, ht⟩ :=
      specFinalPick_isSome args.doors args.openCount car pick h3 hk hc hp
    have ht2 := ht
    rw [specFinalPick] at ht2
    have hpred := List.find?_some ht2
    simp only [Bool.and_eq_true, Bool.not_eq_true', bne_iff_ne, ne_eq] at hpred
    refine ⟨t, by rw [findSwitch_marked, ht], ?_, hpred.2⟩
    refine marked_getD_false t (fun hmem => ?_)
    have h2 : (specOpened args.doors args.openCount car pick).contains t = true :=
      List.elem_iff.mpr hmem
    rw [hpred.1] at h2
    exact Bool.false_ne_true h2


/-- C5 witness: `doorCount = 3` with the default `doorsOpenedByHost`
(`doors - 2 = 1`), car behind door 1, pick door 2. -/
theorem c5_host_invariant_witness :
    ∃ d, hostLoop 1 2 (Args.openCount ⟨3, none, true, none⟩) (3 + 4)
          (List.replicate 3 false) 0 0 = .ok d ∧
      d.count true = Args.openCount ⟨3, none, true, none⟩ ∧
      d.getD 1 false = false ∧
      d.getD 2 false = false ∧
      ∃ t, findSwitch d 2 = some t ∧ d.getD t false = false ∧ t ≠ 2 :=
  c5_host_invariant ⟨3, none, true, none⟩ 1 2
    (by decide) (by decide) (by decide) (by decide)

/-- C9: under the valid-configuration precondition `play_single` is total:
the host-opening loop terminates normally within the bounds of the scratch
buffer, the search for the switch target finds a door, and the call returns
an outcome (no panic). -/
theorem c9_play_single_total (args : Args) (doors : List Bool) (car pick : Nat)
    (h3 : 3 ≤ args.doors) (hk : args.openCount ≤ args.doors - 2)
    (hc : car < args.doors) (hp : pick < args.doors) (hl : doors.length = args.doors) :
    ∃ b, play_single args doors car pick = some b := by
  rw [play_single_eq_spec args doors car pick hk hc hp hl, specOutcome]
  by_cases hch : args.change = true
  · rw [if_pos hch]
    obtain ⟨t, ht⟩ := specFinalPick_isSome args.doors args.openCount car pick h3 hk hc hp
    exact ⟨t == car, by rw [ht]; rfl⟩
  · rw [if_neg hch]
    exact ⟨car == pick, rfl⟩

/-- C9 witness: `doorCount = 10`, `doorsOpenedByHost = 8`, car behind door 2,
pick door 5. -/
theorem c9_play_single_total_witness :
    ∃ b, play_single ⟨10, some 8, true, none⟩ (List.replicate 10 false) 2 5 = some b :=
  c9_play_single_total ⟨10, some 8, true, none⟩ (List.replicate 10 false) 2 5
    (by decide) (by decide) (by decide) (by decide) (by decide)
